import Mathlib

/-!
Shallow embedding of the `cwgen` Morse-audio pipeline (src/morse.rs,
src/audio.rs, src/main.rs).

Conventions:
* Rust `Duration` values are modelled as natural numbers of milliseconds
  (every duration in the program is built from whole milliseconds).
* `f32`/`f64` values are modelled as real numbers; casting a nonnegative
  float product to `usize` is modelled as the natural-number floor.
* The per-sample random white noise drawn from `rand::rng().random_range`
  is modelled as an oracle stream `white : ℕ → ℝ` indexed by the number of
  samples already emitted (exactly one draw per emitted sample).
-/

namespace Cwgen

/-- From src/morse.rs: the `MorseError` enum. -/
inductive MorseError where
  | invalidCharacter : Char → MorseError
  | invalidSpeed : ℕ → MorseError
  | invalidTone : ℕ → MorseError
  | invalidFarnsworth : ℕ → ℕ → MorseError
  | audioDeviceError : String → MorseError
deriving DecidableEq

/-- From src/morse.rs: Rust's `char::to_ascii_uppercase`. -/
def toAsciiUpper (c : Char) : Char :=
  if 'a' ≤ c ∧ c ≤ 'z' then Char.ofNat (c.toNat - 32) else c

/-- From src/morse.rs: the static `MORSE` lookup table (`phf_map!`). -/
def MORSE (c : Char) : Option String :=
  match c with
  | 'A' => some ".-"    | 'B' => some "-..." | 'C' => some "-.-." | 'D' => some "-.."
  | 'E' => some "."     | 'F' => some "..-." | 'G' => some "--."  | 'H' => some "...."
  | 'I' => some ".."    | 'J' => some ".---" | 'K' => some "-.-"  | 'L' => some ".-.."
  | 'M' => some "--"    | 'N' => some "-."   | 'O' => some "---"  | 'P' => some ".--."
  | 'Q' => some "--.-"  | 'R' => some ".-."  | 'S' => some "..."  | 'T' => some "-"
  | 'U' => some "..-"   | 'V' => some "...-" | 'W' => some ".--"  | 'X' => some "-..-"
  | 'Y' => some "-.--"  | 'Z' => some "--.."
  | '0' => some "-----" | '1' => some ".----" | '2' => some "..---" | '3' => some "...--"
  | '4' => some "....-" | '5' => some "....." | '6' => some "-...." | '7' => some "--..."
  | '8' => some "---.." | '9' => some "----."
  | '.' => some ".-.-.-" | ',' => some "--..--" | '?' => some "..--.." | '/' => some "-..-."
  | '&' => some ".-..." | '(' => some "-.--."  | ')' => some "-.--.-" | '+' => some ".-.-."
  | '=' => some "-...-" | '@' => some ".--.-." | ':' => some "---..." | '\'' => some ".----."
  | '"' => some ".-..-." | '!' => some "-.-.--" | '-' => some "-...-"
  | ' ' => some "/"
  | '\n' => some ""
  | '\r' => some ""
  | _ => none

/-- From src/morse.rs: the `Timing` struct; fields are durations in
milliseconds (the Rust code builds every field with `Duration::from_millis`
arithmetic, so all values are whole milliseconds). -/
structure Timing where
  dot : ℕ
  dash : ℕ
  sym : ℕ
  chr : ℕ
  wrd : ℕ
deriving DecidableEq

/-- From src/morse.rs: `Timing::new(wpm, extra_gap_ms)`.
`1200 / wpm` is Rust `u64` (truncating) division, matching `Nat` division. -/
def Timing.new (wpm : ℕ) (extra_gap_ms : ℕ) : Timing :=
  let unit := 1200 / wpm
  { dot := unit
    dash := unit * 3
    sym := unit
    chr := unit * 3 + extra_gap_ms
    wrd := unit * 7 + extra_gap_ms }

/-- From src/morse.rs: `Timing::new_farnsworth(char_speed, overall_speed,
extra_gap_ms)`. The `Duration` subtraction `overall_unit * 7 - char_unit * 6`
panics in Rust on underflow; here it is truncating `Nat` subtraction (the
program only calls this with `char_speed > overall_speed`, where no underflow
occurs). -/
def Timing.new_farnsworth (char_speed overall_speed : ℕ) (extra_gap_ms : ℕ) : Timing :=
  let char_unit := 1200 / char_speed
  let overall_unit := 1200 / overall_speed
  let extended_gap := overall_unit * 7 - char_unit * (7 - 1)
  { dot := char_unit
    dash := char_unit * 3
    sym := char_unit
    chr := char_unit * 3 + extended_gap + extra_gap_ms
    wrd := char_unit * 7 + extended_gap * 2 + extra_gap_ms }

/-- From src/main.rs: the CLI arguments relevant to validation. -/
structure Args where
  wpm : ℕ
  tone : ℕ
  gap_ms : ℕ
  farnsworth : Option ℕ
  qrm : ℕ
  drift : Option ℕ

/-- From src/main.rs: `validate_args`. -/
def validate_args (a : Args) : Except MorseError Unit :=
  if a.wpm < 1 ∨ a.wpm > 100 then .error (.invalidSpeed a.wpm)
  else if a.tone < 100 ∨ a.tone > 3000 then .error (.invalidTone a.tone)
  else
    match a.farnsworth with
    | some f =>
      if f < 5 ∨ f > 40 then .error (.invalidSpeed f)
      else if f ≤ a.wpm then .error (.invalidFarnsworth f a.wpm)
      else .ok ()
    | none => .ok ()

/-- From src/main.rs (`main`): arguments are validated first and the process
exits on error; only then is the `Timing` constructed (Farnsworth when the
`--farnsworth` flag is present, standard otherwise). -/
def mainTiming (a : Args) : Except MorseError Timing :=
  match validate_args a with
  | .error e => .error e
  | .ok _ =>
    .ok (match a.farnsworth with
         | some char_speed => Timing.new_farnsworth char_speed a.wpm a.gap_ms
         | none => Timing.new a.wpm a.gap_ms)

/-- From src/audio.rs: the `ToneShape` enum. -/
inductive ToneShape where
  | sine
  | square
  | sawtooth
deriving DecidableEq

/-- From src/audio.rs: the `ToneGenerator` struct. -/
structure ToneGenerator where
  sample_rate : ℕ
  base_frequency : ℝ
  current_frequency : ℝ
  phase : ℝ
  shape : ToneShape
  drift_percentage : Option ℕ
  symbol_start_time : ℝ

/-- From src/audio.rs: `ToneGenerator::new`. -/
noncomputable def ToneGenerator.new (frequency : ℕ) (sample_rate : ℕ)
    (shape : ToneShape) (drift_percentage : Option ℕ) : ToneGenerator :=
  { sample_rate := sample_rate
    base_frequency := (frequency : ℝ)
    current_frequency := (frequency : ℝ)
    phase := 0
    shape := shape
    drift_percentage := drift_percentage
    symbol_start_time := 0 }

/-- From src/audio.rs: `ToneGenerator::start_symbol`. -/
noncomputable def ToneGenerator.start_symbol (g : ToneGenerator) (sample_time : ℝ) :
    ToneGenerator :=
  let g1 :=
    if g.drift_percentage.isSome then
      { g with symbol_start_time := sample_time, current_frequency := g.base_frequency }
    else g
  { g1 with phase := 0 }

/-- From src/audio.rs: `ToneGenerator::next_sample`; returns the emitted
amplitude together with the updated generator state. -/
noncomputable def ToneGenerator.next_sample (g : ToneGenerator) (sample_time : ℝ) :
    ℝ × ToneGenerator :=
  let g1 :=
    match g.drift_percentage with
    | some drift_pct =>
      let time_in_symbol := sample_time - g.symbol_start_time
      let target_fraction := (drift_pct : ℝ) / 100
      let decay_rate : ℝ := 1.2
      let drift_factor :=
        target_fraction + (1 - target_fraction) * Real.exp (-decay_rate * time_in_symbol)
      { g with current_frequency := g.base_frequency * drift_factor }
    | none => g
  let increment := 2 * Real.pi * g1.current_frequency / (g1.sample_rate : ℝ)
  let phase0 := g1.phase + increment
  let phase := if phase0 > 2 * Real.pi then phase0 - 2 * Real.pi else phase0
  let g2 := { g1 with phase := phase }
  let v :=
    match g2.shape with
    | ToneShape.sine => Real.sin phase
    | ToneShape.square => if phase < Real.pi then (0.8 : ℝ) else -0.8
    | ToneShape.sawtooth => (phase / (2 * Real.pi) * 2 - 1) * 0.8
  (v, g2)

/-- From src/audio.rs: the `SsbNoise` struct. -/
structure SsbNoise where
  amplitude : ℝ
  i : ℝ
  q : ℝ
  phase : ℝ

/-- From src/audio.rs (`SsbNoise::new`): the calibrated QRM amplitude table;
levels above 9 take the `_ => 0.01` fallback arm. -/
noncomputable def noiseAmplitude (qrm_level : ℕ) : ℝ :=
  match qrm_level with
  | 0 => 0.01
  | 1 => 0.03
  | 2 => 0.06
  | 3 => 0.10
  | 4 => 0.18
  | 5 => 0.30
  | 6 => 0.50
  | 7 => 0.80
  | 8 => 1.20
  | 9 => 2.00
  | _ => 0.01

/-- From src/audio.rs: `SsbNoise::new`. -/
noncomputable def SsbNoise.new (qrm_level : ℕ) : SsbNoise :=
  { amplitude := noiseAmplitude qrm_level
    i := 0
    q := 0
    phase := 0 }

/-- From src/audio.rs: `SsbNoise::next`; `white` is the uniformly random
sample in [-1, 1) drawn by `rand::rng().random_range(-1.0f32..1.0)`. -/
noncomputable def SsbNoise.next (s : SsbNoise) (white : ℝ) (sample_rate : ℕ) :
    ℝ × SsbNoise :=
  let i := s.i + (white - s.i) * 0.12
  let target_q := i
  let q := s.q + (target_q - s.q) * 0.12
  let phase := s.phase + 2 * Real.pi * 1000 / (sample_rate : ℝ)
  let car_i := Real.cos phase
  let car_q := Real.sin phase
  let usb := i * car_i - q * car_q
  (usb * s.amplitude, { amplitude := s.amplitude, i := i, q := q, phase := phase })

/-- From src/audio.rs (`MorseAudio::new_with_sample_rate`): casting the
nonnegative product `sample_rate as f64 * dur.as_secs_f64()` to `usize`
truncates, i.e. for a duration of `ms` milliseconds it yields
`⌊sample_rate * ms / 1000⌋`. -/
def durationSamples (sample_rate : ℕ) (ms : ℕ) : ℕ :=
  sample_rate * ms / 1000

/-- From src/audio.rs: `attack_dur = timing.sym.mul_f32(0.15)` in samples,
i.e. `⌊sample_rate * 0.15 * sym / 1000⌋`. -/
def attackSamples (sample_rate : ℕ) (t : Timing) : ℕ :=
  sample_rate * (t.sym * 15) / 100000

/-- From src/audio.rs: `release_dur = timing.sym.mul_f32(0.25)` in samples,
i.e. `⌊sample_rate * 0.25 * sym / 1000⌋`. -/
def releaseSamples (sample_rate : ℕ) (t : Timing) : ℕ :=
  sample_rate * (t.sym * 25) / 100000

/-- From src/audio.rs: `let signal_amplitude = 0.25` (S9 level). -/
noncomputable def signal_amplitude : ℝ := 0.25

/-- The mutable state threaded through the rendering loop of
`MorseAudio::new_with_sample_rate`: the tone generator, the noise
generator, the accumulated sample buffer, the running `sample_time`,
and the `is_first_symbol` flag. -/
structure Seq where
  tone : ToneGenerator
  noise : SsbNoise
  samples : List ℝ
  sample_time : ℝ
  is_first_symbol : Bool

/-- From src/audio.rs: one iteration of a noise-only gap loop
(`samples.push(noise.next(sample_rate)); sample_time += 1.0 / sample_rate`). -/
noncomputable def noiseStep (white : ℕ → ℝ) (sample_rate : ℕ) (st : Seq) (_i : ℕ) : Seq :=
  let r := st.noise.next (white st.samples.length) sample_rate
  { st with
    noise := r.2
    samples := st.samples ++ [r.1]
    sample_time := st.sample_time + 1 / (sample_rate : ℝ) }

/-- From src/audio.rs: iteration `i` of the tone loop `for i in 0..len`:
the attack/release/first-sample envelope, one oscillator sample scaled by
`signal_amplitude`, one noise sample, and the sum pushed to the buffer.
(`len - release` and `len - i` are `usize` subtractions; `i` ranges over
`0..len` so `len - i` never underflows, and the program's `release` never
exceeds `len`.) -/
noncomputable def toneStep (white : ℕ → ℝ) (sample_rate len attack release : ℕ)
    (st : Seq) (i : ℕ) : Seq :=
  let amp : ℝ := 1
  let amp := if i < attack then (i : ℝ) / (attack : ℝ) else amp
  let amp := if i ≥ len - release then ((len - i : ℕ) : ℝ) / (release : ℝ) else amp
  let amp := if st.is_first_symbol ∧ i = 0 then amp * 0.1 else amp
  let tr := st.tone.next_sample st.sample_time
  let tone_sample := tr.1 * signal_amplitude * amp
  let nr := st.noise.next (white st.samples.length) sample_rate
  { st with
    tone := tr.2
    noise := nr.2
    samples := st.samples ++ [tone_sample + nr.1]
    sample_time := st.sample_time + 1 / (sample_rate : ℝ) }

/-- From src/audio.rs: the body run for one dot/dash of duration `durMs`
(where `durMs` is `timing.dot` or `timing.dash`): `start_symbol`, the
enveloped tone loop, clearing `is_first_symbol`, then the `timing.sym`
noise-only intra-character gap. -/
noncomputable def symRun (white : ℕ → ℝ) (sample_rate : ℕ) (t : Timing) (durMs : ℕ)
    (st : Seq) : Seq :=
  let len := durationSamples sample_rate durMs
  let attack := attackSamples sample_rate t
  let release := releaseSamples sample_rate t
  let st1 := { st with tone := st.tone.start_symbol st.sample_time }
  let st2 := (List.range len).foldl (toneStep white sample_rate len attack release) st1
  let st3 := { st2 with is_first_symbol := false }
  let off := durationSamples sample_rate t.sym
  (List.range off).foldl (noiseStep white sample_rate) st3

/-- From src/audio.rs: `for sym in code.chars()` — `'.'` renders a dot,
`'-'` a dash, anything else `continue`s. -/
noncomputable def symStep (white : ℕ → ℝ) (sample_rate : ℕ) (t : Timing)
    (st : Seq) (c : Char) : Seq :=
  if c = '.' then symRun white sample_rate t t.dot st
  else if c = '-' then symRun white sample_rate t t.dash st
  else st

/-- From src/audio.rs: the body of `for ch in text.chars()`: uppercase the
character; when it is in `MORSE`, render every symbol of its code and then
the `(chr - sym)` inter-character gap; otherwise, when it is a space, the
`(wrd - chr)` inter-word gap (this branch is unreachable for `' '` itself,
since `MORSE` maps `' '` to `"/"`). -/
noncomputable def charStep (white : ℕ → ℝ) (sample_rate : ℕ) (t : Timing)
    (st : Seq) (ch : Char) : Seq :=
  let up := toAsciiUpper ch
  match MORSE up with
  | some code =>
    let st1 := code.toList.foldl (symStep white sample_rate t) st
    let off := durationSamples sample_rate (t.chr - t.sym)
    (List.range off).foldl (noiseStep white sample_rate) st1
  | none =>
    if up = ' ' then
      let off := durationSamples sample_rate (t.wrd - t.chr)
      (List.range off).foldl (noiseStep white sample_rate) st
    else st

/-- From src/audio.rs: `MorseAudio::new_with_sample_rate`; returns the
sample buffer (the `samples` vector) produced for `text`. -/
noncomputable def new_with_sample_rate (sample_rate : ℕ) (text : String) (timing : Timing)
    (tone : ℕ) (qrm : ℕ) (tone_shape : ToneShape) (drift_percentage : Option ℕ)
    (white : ℕ → ℝ) : List ℝ :=
  let st : Seq :=
    { tone := ToneGenerator.new tone sample_rate tone_shape drift_percentage
      noise := SsbNoise.new qrm
      samples := []
      sample_time := 0
      is_first_symbol := true }
  (text.toList.foldl (charStep white sample_rate timing) st).samples

/-- Number of samples a single dot/dash symbol contributes
(the symbol itself plus the trailing intra-character gap). -/
def renderSymLen (sample_rate : ℕ) (t : Timing) (c : Char) : ℕ :=
  if c = '.' then durationSamples sample_rate t.dot + durationSamples sample_rate t.sym
  else if c = '-' then durationSamples sample_rate t.dash + durationSamples sample_rate t.sym
  else 0

/-- Number of samples one input character contributes. -/
def renderCharLen (sample_rate : ℕ) (t : Timing) (ch : Char) : ℕ :=
  match MORSE (toAsciiUpper ch) with
  | some code =>
    (code.toList.map (renderSymLen sample_rate t)).sum
      + durationSamples sample_rate (t.chr - t.sym)
  | none =>
    if toAsciiUpper ch = ' ' then durationSamples sample_rate (t.wrd - t.chr) else 0

/-- Total number of samples the sequencer produces for `text`. -/
def renderLen (sample_rate : ℕ) (t : Timing) (text : String) : ℕ :=
  (text.toList.map (renderCharLen sample_rate t)).sum

/-! ### Buffer-length bookkeeping -/

theorem noiseStep_samples_length (white : ℕ → ℝ) (sample_rate : ℕ) (st : Seq) (i : ℕ) :
    (noiseStep white sample_rate st i).samples.length = st.samples.length + 1 := by
  simp [noiseStep]

theorem noiseFold_samples_length (white : ℕ → ℝ) (sample_rate : ℕ) :
    ∀ (n : ℕ) (st : Seq),
      (((List.range n).foldl (noiseStep white sample_rate) st).samples.length)
        = st.samples.length + n := by
  intro n
  induction n with
  | zero => intro st; simp
  | succ n ih =>
    intro st
    rw [List.range_succ, List.foldl_append]
    simp [noiseStep_samples_length, ih st]
    omega

theorem toneStep_samples_length (white : ℕ → ℝ) (sample_rate len attack release : ℕ)
    (st : Seq) (i : ℕ) :
    (toneStep white sample_rate len attack release st i).samples.length
      = st.samples.length + 1 := by
  simp [toneStep]

theorem toneFold_samples_length (white : ℕ → ℝ) (sample_rate len attack release : ℕ) :
    ∀ (n : ℕ) (st : Seq),
      (((List.range n).foldl (toneStep white sample_rate len attack release) st).samples.length)
        = st.samples.length + n := by
  intro n
  induction n with
  | zero => intro st; simp
  | succ n ih =>
    intro st
    rw [List.range_succ, List.foldl_append]
    simp [toneStep_samples_length, ih st]
    omega

theorem symRun_samples_length (white : ℕ → ℝ) (sample_rate : ℕ) (t : Timing) (durMs : ℕ)
    (st : Seq) :
    (symRun white sample_rate t durMs st).samples.length
      = st.samples.length + durationSamples sample_rate durMs
          + durationSamples sample_rate t.sym := by
  simp only [symRun, noiseFold_samples_length, toneFold_samples_length]

theorem symStep_samples_length (white : ℕ → ℝ) (sample_rate : ℕ) (t : Timing)
    (st : Seq) (c : Char) :
    (symStep white sample_rate t st c).samples.length
      = st.samples.length + renderSymLen sample_rate t c := by
  unfold symStep renderSymLen
  split_ifs <;> simp [symRun_samples_length] <;> omega

theorem symFold_samples_length (white : ℕ → ℝ) (sample_rate : ℕ) (t : Timing) :
    ∀ (l : List Char) (st : Seq),
      ((l.foldl (symStep white sample_rate t) st).samples.length)
        = st.samples.length + (l.map (renderSymLen sample_rate t)).sum := by
  intro l
  induction l with
  | nil => intro st; simp
  | cons c cs ih =>
    intro st
    simp [List.foldl_cons, ih, symStep_samples_length]
    omega

theorem charStep_samples_length (white : ℕ → ℝ) (sample_rate : ℕ) (t : Timing)
    (st : Seq) (ch : Char) :
    (charStep white sample_rate t st ch).samples.length
      = st.samples.length + renderCharLen sample_rate t ch := by
  simp only [charStep, renderCharLen]
  cases h : MORSE (toAsciiUpper ch) with
  | some code =>
    simp [noiseFold_samples_length, symFold_samples_length]
    try omega
  | none =>
    split_ifs <;> simp [noiseFold_samples_length]

theorem charFold_samples_length (white : ℕ → ℝ) (sample_rate : ℕ) (t : Timing) :
    ∀ (l : List Char) (st : Seq),
      ((l.foldl (charStep white sample_rate t) st).samples.length)
        = st.samples.length + (l.map (renderCharLen sample_rate t)).sum := by
  intro l
  induction l with
  | nil => intro st; simp
  | cons c cs ih =>
    intro st
    simp [List.foldl_cons, ih, charStep_samples_length]
    omega

theorem new_with_sample_rate_length (sample_rate : ℕ) (text : String) (timing : Timing)
    (tone : ℕ) (qrm : ℕ) (tone_shape : ToneShape) (drift_percentage : Option ℕ)
    (white : ℕ → ℝ) :
    (new_with_sample_rate sample_rate text timing tone qrm tone_shape drift_percentage
        white).length
      = renderLen sample_rate timing text := by
  unfold new_with_sample_rate renderLen
  rw [charFold_samples_length]
  simp

/-! ### Claim theorems: timing, validation, buffer lengths -/

/-- Claim C2, counterexample: at 20 WPM with no extra gap, `Timing::new`
yields `chr = dash` (both 180 ms), so `chr > dash` fails even though
`dash = 3 × dot`. -/
theorem timing_chr_eq_dash_counterexample :
    (Timing.new 20 0).dash = 3 * (Timing.new 20 0).dot ∧
      ¬ (Timing.new 20 0).chr > (Timing.new 20 0).dash := by
  decide

/-- Claim C2 (amended): for every WPM in the supported 1–100 range and every
extra-gap setting, `Timing::new` satisfies `dash = 3 × dot` and `wrd > chr`;
`chr ≥ dash` always, with `chr > dash` exactly when the extra gap is
positive (`chr = dash` when `extra_gap_ms = 0`). -/
theorem timing_new_invariants (wpm extra : ℕ) (h1 : 1 ≤ wpm) (h2 : wpm ≤ 100) :
    (Timing.new wpm extra).dash = 3 * (Timing.new wpm extra).dot ∧
    (Timing.new wpm extra).chr ≥ (Timing.new wpm extra).dash ∧
    (Timing.new wpm extra).wrd > (Timing.new wpm extra).chr ∧
    ((Timing.new wpm extra).chr > (Timing.new wpm extra).dash ↔ 0 < extra) := by
  have hu : 0 < 1200 / wpm := Nat.div_pos (by omega) (by omega)
  simp only [Timing.new]
  omega

/-- Claim C2, witness at WPM 20 with a 5 ms extra gap. -/
theorem timing_new_invariants_witness :
    (Timing.new 20 5).dash = 3 * (Timing.new 20 5).dot ∧
    (Timing.new 20 5).chr ≥ (Timing.new 20 5).dash ∧
    (Timing.new 20 5).wrd > (Timing.new 20 5).chr ∧
    ((Timing.new 20 5).chr > (Timing.new 20 5).dash ↔ 0 < 5) :=
  timing_new_invariants 20 5 (by decide) (by decide)

/-- Claim C4: whenever the Farnsworth character speed is at most the overall
speed, `validate_args` fails, `main` exits before constructing the `Timing`,
and hence no `Timing` is produced. -/
theorem farnsworth_not_gt_rejected (a : Args) (f : ℕ)
    (hf : a.farnsworth = some f) (hle : f ≤ a.wpm) :
    ∃ e : MorseError, mainTiming a = Except.error e := by
  have hv : ∃ e : MorseError, validate_args a = Except.error e := by
    simp only [validate_args, hf]
    split_ifs with h1 h2 h3
    case _ => exact ⟨_, rfl⟩
    case _ => exact ⟨_, rfl⟩
    case _ => exact ⟨_, rfl⟩
    case _ => exact ⟨_, rfl⟩
  obtain ⟨e, he⟩ := hv
  exact ⟨e, by simp only [mainTiming, he]⟩

/-- Claim C4, witness: `--farnsworth 20 --wpm 20` is rejected. -/
theorem farnsworth_not_gt_rejected_witness :
    ∃ e : MorseError,
      mainTiming { wpm := 20, tone := 700, gap_ms := 0, farnsworth := some 20,
                   qrm := 0, drift := none } = Except.error e :=
  farnsworth_not_gt_rejected _ 20 rfl (by decide)

/-- Claim C9: the length of the buffer produced by
`MorseAudio::new_with_sample_rate` depends only on the text, the timing and
the sample rate — two runs with different tone frequencies, noise levels,
waveform shapes, drift settings and random noise streams produce buffers of
identical length. -/
theorem buffer_length_deterministic (sample_rate : ℕ) (text : String) (timing : Timing)
    (tone₁ tone₂ qrm₁ qrm₂ : ℕ) (shape₁ shape₂ : ToneShape)
    (drift₁ drift₂ : Option ℕ) (white₁ white₂ : ℕ → ℝ) :
    (new_with_sample_rate sample_rate text timing tone₁ qrm₁ shape₁ drift₁ white₁).length
      = (new_with_sample_rate sample_rate text timing tone₂ qrm₂ shape₂ drift₂
          white₂).length := by
  rw [new_with_sample_rate_length, new_with_sample_rate_length]

/-- Claim C3, counterexample: at 20 WPM / 8000 Hz, rendering `"E"` yields
1920 samples, not the claimed `dot_samples + sym_samples = 960` — the
sequencer also appends the `(chr − sym)` inter-character gap. -/
theorem render_E_length_counterexample :
    (new_with_sample_rate 8000 "E" (Timing.new 20 0) 700 0 ToneShape.sine none
        (fun _ => 0)).length
      ≠ durationSamples 8000 (Timing.new 20 0).dot
          + durationSamples 8000 (Timing.new 20 0).sym := by
  rw [new_with_sample_rate_length]
  decide

/-- Claim C3 (amended): for every timing and sample rate, rendering `"E"`
produces `dot_samples + sym_samples + (chr − sym)_samples` samples: the dot,
its trailing intra-symbol gap, and the inter-character gap the sequencer
appends after every mapped character. -/
theorem render_E_length (sample_rate : ℕ) (t : Timing) (tone qrm : ℕ)
    (shape : ToneShape) (drift : Option ℕ) (white : ℕ → ℝ) :
    (new_with_sample_rate sample_rate "E" t tone qrm shape drift white).length
      = durationSamples sample_rate t.dot + durationSamples sample_rate t.sym
          + durationSamples sample_rate (t.chr - t.sym) := by
  rw [new_with_sample_rate_length]
  show durationSamples sample_rate t.dot + durationSamples sample_rate t.sym + 0
      + durationSamples sample_rate (t.chr - t.sym) + 0 = _
  omega

/-- Claim C5, counterexample: at 20 WPM / 8000 Hz, rendering `"\n"` (which
maps to the empty code) yields the 960 inter-character-gap samples rather
than zero samples — the `(chr − sym)` gap is not skipped for empty codes. -/
theorem render_newline_gap_counterexample :
    (new_with_sample_rate 8000 "\n" (Timing.new 20 0) 700 0 ToneShape.sine none
        (fun _ => 0)).length
      = durationSamples 8000 ((Timing.new 20 0).chr - (Timing.new 20 0).sym) ∧
    durationSamples 8000 ((Timing.new 20 0).chr - (Timing.new 20 0).sym) ≠ 0 := by
  constructor
  · rw [new_with_sample_rate_length]; decide
  · decide

/-- Claim C5 (amended): for a character mapping to the empty code (here
`'\n'`), the sequencer emits no symbols but still emits the `(chr − sym)`
inter-character gap; the rendered buffer holds exactly those gap samples. -/
theorem render_newline_emits_char_gap (sample_rate : ℕ) (t : Timing) (tone qrm : ℕ)
    (shape : ToneShape) (drift : Option ℕ) (white : ℕ → ℝ) :
    (new_with_sample_rate sample_rate "\n" t tone qrm shape drift white).length
      = durationSamples sample_rate (t.chr - t.sym) := by
  rw [new_with_sample_rate_length]
  show 0 + durationSamples sample_rate (t.chr - t.sym) + 0 = _
  omega

/-- Claim C1: at 20 WPM / 8000 Hz, rendering a single literal space emits the
960 samples of the `(chr − sym)` inter-character gap — because `MORSE` maps
`' '` to `"/"`, the space takes the character branch and the dedicated
`(wrd − chr)` word-gap branch (1920 samples) is unreachable. -/
theorem render_space_uses_char_gap :
    (new_with_sample_rate 8000 " " (Timing.new 20 0) 700 0 ToneShape.sine none
        (fun _ => 0)).length
      = durationSamples 8000 ((Timing.new 20 0).chr - (Timing.new 20 0).sym) ∧
    durationSamples 8000 ((Timing.new 20 0).chr - (Timing.new 20 0).sym)
      ≠ durationSamples 8000 ((Timing.new 20 0).wrd - (Timing.new 20 0).chr) := by
  constructor
  · rw [new_with_sample_rate_length]; decide
  · decide

/-- Claim C10: for every severity level above the documented 0–9 range,
`SsbNoise::new` succeeds and falls back to the level-0 noise amplitude
of 0.01. -/
theorem qrm_above_nine_falls_back (l : ℕ) (h : 9 < l) :
    (SsbNoise.new l).amplitude = (SsbNoise.new 0).amplitude ∧
      (SsbNoise.new l).amplitude = 0.01 := by
  obtain ⟨m, rfl⟩ : ∃ m, l = m + 10 := ⟨l - 10, by omega⟩
  exact ⟨rfl, rfl⟩

/-- Claim C10, witness at severity level 10. -/
theorem qrm_above_nine_falls_back_witness :
    (SsbNoise.new 10).amplitude = (SsbNoise.new 0).amplitude ∧
      (SsbNoise.new 10).amplitude = 0.01 :=
  qrm_above_nine_falls_back 10 (by decide)

/-! ### Oscillator and noise range claims -/

theorem drift_factor_bounds (p : ℕ) (hp : p ≤ 100) (d : ℝ) (hd : 0 ≤ d) :
    0 ≤ (p : ℝ) / 100 + (1 - (p : ℝ) / 100) * Real.exp (-(1.2) * d) ∧
    (p : ℝ) / 100 + (1 - (p : ℝ) / 100) * Real.exp (-(1.2) * d) ≤ 1 := by
  have hpR : (p : ℝ) ≤ 100 := by exact_mod_cast hp
  have hp0 : (0 : ℝ) ≤ (p : ℝ) := Nat.cast_nonneg p
  have he0 : 0 < Real.exp (-(1.2) * d) := Real.exp_pos _
  have he1 : Real.exp (-(1.2) * d) ≤ 1 := by
    rw [Real.exp_le_one_iff]
    nlinarith
  constructor <;> nlinarith

theorem wrapped_phase_bounds (phase inc : ℝ) (h0 : 0 ≤ phase) (h2 : phase ≤ 2 * Real.pi)
    (hi0 : 0 ≤ inc) (hi2 : inc ≤ 2 * Real.pi) :
    0 ≤ (if phase + inc > 2 * Real.pi then phase + inc - 2 * Real.pi else phase + inc) ∧
    (if phase + inc > 2 * Real.pi then phase + inc - 2 * Real.pi else phase + inc)
      ≤ 2 * Real.pi := by
  split_ifs with h <;> constructor <;> linarith

theorem sawtooth_value_bounds (P : ℝ) (h0 : 0 ≤ P) (h2 : P ≤ 2 * Real.pi) :
    -1 ≤ (P / (2 * Real.pi) * 2 - 1) * 0.8 ∧ (P / (2 * Real.pi) * 2 - 1) * 0.8 ≤ 1 := by
  have hpi := Real.pi_pos
  have hq0 : 0 ≤ P / (2 * Real.pi) := by positivity
  have hq1 : P / (2 * Real.pi) ≤ 1 := (div_le_one (by positivity)).mpr h2
  constructor <;> nlinarith

theorem increment_bounds (cf sr : ℝ) (hcf0 : 0 ≤ cf) (hcfs : cf ≤ sr) (hsr : 0 < sr) :
    0 ≤ 2 * Real.pi * cf / sr ∧ 2 * Real.pi * cf / sr ≤ 2 * Real.pi := by
  have hpi := Real.pi_pos
  constructor
  · positivity
  · rw [div_le_iff₀ hsr]
    nlinarith

/-- Claim C6: for every waveform shape, every drift percentage in [0, 100],
every sample time not before the current symbol start, and every reachable
oscillator state (phase in [0, 2π], frequencies between 0 and the sample
rate), `ToneGenerator::next_sample` returns a value in [-1, 1]. -/
theorem next_sample_in_unit_range (g : ToneGenerator) (t : ℝ)
    (hph0 : 0 ≤ g.phase) (hph2 : g.phase ≤ 2 * Real.pi)
    (hb0 : 0 ≤ g.base_frequency) (hbs : g.base_frequency ≤ (g.sample_rate : ℝ))
    (hc0 : 0 ≤ g.current_frequency) (hcs : g.current_frequency ≤ (g.sample_rate : ℝ))
    (hdrift : ∀ p, g.drift_percentage = some p → p ≤ 100)
    (ht : g.symbol_start_time ≤ t)
    (hsr : 0 < g.sample_rate) :
    -1 ≤ (g.next_sample t).1 ∧ (g.next_sample t).1 ≤ 1 := by
  have hsrR : (0 : ℝ) < (g.sample_rate : ℝ) := by exact_mod_cast hsr
  cases hdp : g.drift_percentage with
  | none =>
    obtain ⟨hi0, hi2⟩ :=
      increment_bounds g.current_frequency (g.sample_rate : ℝ) hc0 hcs hsrR
    obtain ⟨hw0, hw2⟩ :=
      wrapped_phase_bounds g.phase (2 * Real.pi * g.current_frequency / (g.sample_rate : ℝ))
        hph0 hph2 hi0 hi2
    simp only [ToneGenerator.next_sample, hdp]
    cases hsh : g.shape with
    | sine => exact ⟨Real.neg_one_le_sin _, Real.sin_le_one _⟩
    | square => split_ifs <;> norm_num
    | sawtooth => exact sawtooth_value_bounds _ hw0 hw2
  | some p =>
    have hp : p ≤ 100 := hdrift p hdp
    obtain ⟨hf0, hf1⟩ := drift_factor_bounds p hp (t - g.symbol_start_time) (by linarith)
    have hcf0 : 0 ≤ g.base_frequency
        * ((p : ℝ) / 100 + (1 - (p : ℝ) / 100) * Real.exp (-(1.2) * (t - g.symbol_start_time))) :=
      mul_nonneg hb0 hf0
    have hcfs : g.base_frequency
        * ((p : ℝ) / 100 + (1 - (p : ℝ) / 100) * Real.exp (-(1.2) * (t - g.symbol_start_time)))
        ≤ (g.sample_rate : ℝ) :=
      le_trans (mul_le_of_le_one_right hb0 hf1) hbs
    obtain ⟨hi0, hi2⟩ := increment_bounds _ (g.sample_rate : ℝ) hcf0 hcfs hsrR
    obtain ⟨hw0, hw2⟩ := wrapped_phase_bounds g.phase _ hph0 hph2 hi0 hi2
    simp only [ToneGenerator.next_sample, hdp]
    cases hsh : g.shape with
    | sine => exact ⟨Real.neg_one_le_sin _, Real.sin_le_one _⟩
    | square => split_ifs <;> norm_num
    | sawtooth => exact sawtooth_value_bounds _ hw0 hw2

/-- Claim C6, witness: a fresh sine oscillator at 700 Hz over 8000 Hz with no
drift, sampled at time 0. -/
theorem next_sample_in_unit_range_witness :
    -1 ≤ ((ToneGenerator.new 700 8000 ToneShape.sine none).next_sample 0).1 ∧
    ((ToneGenerator.new 700 8000 ToneShape.sine none).next_sample 0).1 ≤ 1 :=
  next_sample_in_unit_range (ToneGenerator.new 700 8000 ToneShape.sine none) 0
    le_rfl (by positivity) (by norm_num [ToneGenerator.new])
    (by norm_num [ToneGenerator.new]) (by norm_num [ToneGenerator.new])
    (by norm_num [ToneGenerator.new]) (by simp [ToneGenerator.new])
    le_rfl (by norm_num [ToneGenerator.new])

/-- Claim C7: with drift enabled at target percentage `p`, each
`next_sample(t)` call sets `current_frequency` to
`base_frequency × (p/100 + (1 − p/100) × exp(−1.2 × (t − symbol_start_time)))`;
in particular when `t = symbol_start_time` the frequency equals the base
frequency. -/
theorem drift_frequency_formula (g : ToneGenerator) (p : ℕ) (t : ℝ)
    (hp : g.drift_percentage = some p) :
    ((g.next_sample t).2).current_frequency
      = g.base_frequency
          * ((p : ℝ) / 100
              + (1 - (p : ℝ) / 100) * Real.exp (-(1.2) * (t - g.symbol_start_time))) ∧
    (t = g.symbol_start_time → ((g.next_sample t).2).current_frequency = g.base_frequency) := by
  constructor
  · simp only [ToneGenerator.next_sample, hp]
  · intro htEq
    simp only [ToneGenerator.next_sample, hp, htEq, sub_self, mul_zero, neg_zero,
      Real.exp_zero, mul_one]
    ring

/-- Claim C7, witness: a 700 Hz oscillator with 75% drift target sampled at
its symbol start time 0. -/
theorem drift_frequency_formula_witness :
    ((ToneGenerator.new 700 8000 ToneShape.sine (some 75)).next_sample 0).2.current_frequency
      = (ToneGenerator.new 700 8000 ToneShape.sine (some 75)).base_frequency
          * ((75 : ℝ) / 100 + (1 - (75 : ℝ) / 100)
              * Real.exp (-(1.2)
                  * (0 - (ToneGenerator.new 700 8000
                      ToneShape.sine (some 75)).symbol_start_time))) ∧
    (0 = (ToneGenerator.new 700 8000 ToneShape.sine (some 75)).symbol_start_time →
      ((ToneGenerator.new 700 8000
          ToneShape.sine (some 75)).next_sample 0).2.current_frequency
        = (ToneGenerator.new 700 8000 ToneShape.sine (some 75)).base_frequency) :=
  drift_frequency_formula (ToneGenerator.new 700 8000 ToneShape.sine (some 75)) 75 0 rfl

/-- Claim C8: the calibrated noise-amplitude table is non-decreasing on
severity levels 0–9, and at severity 0 every sample produced by
`SsbNoise::next` from a reachable state (smoothing accumulators in [-1, 1],
white input in [-1, 1], amplitude as assigned by `SsbNoise::new(0)`) has
magnitude strictly below the signal peak 0.25; the update keeps the state
reachable. -/
theorem noise_amp_monotone_and_level0_below_signal :
    (∀ l₁ l₂ : ℕ, l₁ ≤ l₂ → l₂ ≤ 9 → noiseAmplitude l₁ ≤ noiseAmplitude l₂) ∧
    (∀ (s : SsbNoise) (w : ℝ) (sr : ℕ),
      s.amplitude = noiseAmplitude 0 → |s.i| ≤ 1 → |s.q| ≤ 1 → |w| ≤ 1 →
        |(s.next w sr).1| < 0.25 ∧ |(s.next w sr).2.i| ≤ 1 ∧ |(s.next w sr).2.q| ≤ 1 ∧
          (s.next w sr).2.amplitude = s.amplitude) := by
  constructor
  · intro l₁ l₂ h12 h9
    interval_cases l₂ <;> interval_cases l₁ <;> norm_num [noiseAmplitude]
  · intro s w sr hamp hi hq hw
    rw [abs_le] at hi hq hw
    have hi' : |s.i + (w - s.i) * 0.12| ≤ 1 := by
      rw [abs_le]; constructor <;> nlinarith [hi.1, hi.2, hw.1, hw.2]
    have hq' : |s.q + (s.i + (w - s.i) * 0.12 - s.q) * 0.12| ≤ 1 := by
      rw [abs_le] at hi' ⊢
      constructor <;> nlinarith [hq.1, hq.2, hi'.1, hi'.2]
    have hcos : |Real.cos (s.phase + 2 * Real.pi * 1000 / (sr : ℝ))| ≤ 1 :=
      abs_le.mpr ⟨Real.neg_one_le_cos _, Real.cos_le_one _⟩
    have hsin : |Real.sin (s.phase + 2 * Real.pi * 1000 / (sr : ℝ))| ≤ 1 :=
      abs_le.mpr ⟨Real.neg_one_le_sin _, Real.sin_le_one _⟩
    have husb : |(s.i + (w - s.i) * 0.12)
          * Real.cos (s.phase + 2 * Real.pi * 1000 / (sr : ℝ))
        - (s.q + (s.i + (w - s.i) * 0.12 - s.q) * 0.12)
          * Real.sin (s.phase + 2 * Real.pi * 1000 / (sr : ℝ))| ≤ 2 := by
      have h1 : |(s.i + (w - s.i) * 0.12)
          * Real.cos (s.phase + 2 * Real.pi * 1000 / (sr : ℝ))| ≤ 1 := by
        rw [abs_mul]
        exact mul_le_one₀ hi' (abs_nonneg _) hcos
      have h2 : |(s.q + (s.i + (w - s.i) * 0.12 - s.q) * 0.12)
          * Real.sin (s.phase + 2 * Real.pi * 1000 / (sr : ℝ))| ≤ 1 := by
        rw [abs_mul]
        exact mul_le_one₀ hq' (abs_nonneg _) hsin
      rw [abs_le] at h1 h2 ⊢
      constructor <;> linarith [h1.1, h1.2, h2.1, h2.2]
    refine ⟨?_, ?_, ?_, ?_⟩
    · show |_ * s.amplitude| < 0.25
      rw [hamp]
      have h001 : noiseAmplitude 0 = 0.01 := rfl
      rw [h001, abs_mul]
      have : |(0.01 : ℝ)| = 0.01 := by norm_num
      rw [this]
      nlinarith [husb]
    · exact hi'
    · exact hq'
    · rfl

/-- Claim C8, witness: the table rises from level 0 to level 9, and a fresh
level-0 noise generator's first sample (white input 0) is below 0.25. -/
theorem noise_amp_monotone_witness :
    noiseAmplitude 0 ≤ noiseAmplitude 9 ∧ |((SsbNoise.new 0).next 0 8000).1| < 0.25 :=
  ⟨noise_amp_monotone_and_level0_below_signal.1 0 9 (by decide) (by decide),
   (noise_amp_monotone_and_level0_below_signal.2 (SsbNoise.new 0) 0 8000 rfl
      (by norm_num [SsbNoise.new]) (by norm_num [SsbNoise.new]) (by norm_num)).1⟩

end Cwgen
